import Mathlib

/-!
Shallow embedding of the local data store subsystem (`cate/ds/local.py`).

Conventions used throughout:

* `datetime` values are modelled as integers (`ℤ`, microseconds or an abstract
  totally ordered time stamp, depending on the component); geographic
  coordinates are modelled as rationals (`ℚ`).
* Python strings are modelled as `List Char`.
* Python code that can raise an exception is modelled with `Option`/`Except`
  or with an explicit "raised" flag, as appropriate.
* Functions keep the names of the Python functions they embed where Lean
  permits.
-/

/-! ## Temporal coverage arithmetic

`LocalDataSource._extend_temporal_coverage` (local.py lines 425-440) and
`LocalDataSource._reduce_temporal_coverage` (lines 450-461).
-/

/-- A time range `(start, end)`; `datetime` values modelled as `ℤ`. -/
abbrev TimeR := ℤ × ℤ

/-- Embedding of `LocalDataSource._extend_temporal_coverage` (local.py 425-440).
The first argument is the current `self._temporal_coverage`, the second the
`time_range` parameter; the result is the new `self._temporal_coverage`.
The Python `if not time_range: return` guard corresponds to the `none` case of
the second argument. -/
def _extend_temporal_coverage (cov : Option TimeR) (time_range : Option TimeR) : Option TimeR :=
  match time_range with
  | none => cov
  | some t =>
    match cov with
    | some c =>
      if t.1 ≥ c.2 then some (c.1, t.2)
      else if t.2 ≤ c.1 then some (t.1, c.2)
      else some c
    | none => some t

/-- Embedding of `LocalDataSource._reduce_temporal_coverage` (local.py 450-461).
Note the source uses two consecutive (non-`elif`) `if` statements; the second
reads the possibly already updated coverage, which is mirrored by `c1`. -/
def _reduce_temporal_coverage (cov : Option TimeR) (time_range : Option TimeR) : Option TimeR :=
  match time_range, cov with
  | none, _ => cov
  | _, none => cov
  | some t, some c =>
    let c1 := if t.1 > c.1 ∧ t.2 = c.2 then (c.1, t.1) else c
    let c2 := if t.2 < c1.2 ∧ t.1 = c1.1 then (t.2, c1.2) else c1
    some c2

/-! ## File manifest and `add_dataset`

`LocalDataSource.add_dataset` (local.py lines 409-423).  The `files` mapping
is an ordered dictionary from a relative path to an optional temporal
coverage; it is modelled as an association list.  The re-sorting on line
415-416 uses the Python key
`f[1] if isinstance(f, Tuple) and f[1] else datetime.max`; since `f` is the
`(key, value)` item (always a tuple), the key degenerates to
`f[1] if f[1] else datetime.max`, i.e. the coverage tuple for covered files
and the `datetime.max` sentinel otherwise.  Comparing a tuple with a
`datetime` raises `TypeError` in Python, which the embedding models as an
`Except` error in the comparison.
-/

/-- A single entry of the `files` ordered mapping. -/
abbrev FileEntry := List Char × Option TimeR

/-- The Python sort key of local.py line 416: a `(start, end)` tuple for
covered files, the `datetime.max` sentinel otherwise. -/
inductive SortKey
  | cov (s e : ℤ)
  | dtMax
deriving DecidableEq

/-- Sort key of a manifest value (local.py line 416). -/
def sortKey (v : Option TimeR) : SortKey :=
  match v with
  | some p => .cov p.1 p.2
  | none => .dtMax

/-- Python `<` on the sort keys used by `sorted`: tuples compare
lexicographically, `datetime.max` compares equal to itself, and comparing a
tuple with a `datetime` raises `TypeError` (modelled as `Except.error`). -/
def pyLt : SortKey → SortKey → Except Unit Bool
  | .cov s1 e1, .cov s2 e2 => .ok (decide (s1 < s2 ∨ (s1 = s2 ∧ e1 < e2)))
  | .dtMax, .dtMax => .ok false
  | _, _ => .error ()

/-- Stable insertion of an element into an already sorted list, propagating a
Python `TypeError` raised by a key comparison. -/
def insertSorted (x : FileEntry) : List FileEntry → Except Unit (List FileEntry)
  | [] => .ok [x]
  | y :: ys =>
    match pyLt (sortKey x.2) (sortKey y.2) with
    | .error e => .error e
    | .ok true => .ok (x :: y :: ys)
    | .ok false =>
      match insertSorted x ys with
      | .error e => .error e
      | .ok r => .ok (y :: r)

/-- Insert all elements of the second list, in order, into the accumulator. -/
def insertAll (acc : List FileEntry) : List FileEntry → Except Unit (List FileEntry)
  | [] => .ok acc
  | x :: xs =>
    match insertSorted x acc with
    | .error e => .error e
    | .ok acc' => insertAll acc' xs

/-- The `sorted(self._files.items(), key=...)` call of local.py 415-416,
modelled as a stable insertion sort that raises (returns `Except.error`) as
soon as an incomparable pair of keys is compared, as Python's sort does. -/
def pySortFiles (l : List FileEntry) : Except Unit (List FileEntry) :=
  insertAll [] l

/-- The mutable state of a `LocalDataSource` relevant to `add_dataset`. -/
structure DsState where
  files : List FileEntry
  temporal_coverage : Option TimeR
deriving DecidableEq

/-- Python `self._files[file] = time_coverage`: overwrite in place if the key
exists, append otherwise. -/
def dictAssign (fs : List FileEntry) (file : List Char) (tc : Option TimeR) : List FileEntry :=
  if file ∈ fs.map Prod.fst then
    fs.map (fun p => if p.1 = file then (file, tc) else p)
  else fs ++ [(file, tc)]

/-- Embedding of `LocalDataSource.add_dataset` (local.py 409-423), without the
`extract_meta_info` branch (pure metadata harvesting).  Returns the state
after the call together with a flag that is `true` when the re-sorting step
raised a Python `TypeError`; in that case the mutations already performed
(the dict assignment and the coverage extension) are retained, exactly as in
the source where the exception propagates after the assignments of lines
411-414 have happened. -/
def add_dataset (st : DsState) (file : List Char) (time_coverage : Option TimeR)
    (update : Bool) : DsState × Bool :=
  let st1 :=
    if update = true ∨ file ∉ st.files.map Prod.fst then
      { files := dictAssign st.files file time_coverage
        -- `if time_coverage: self._extend_temporal_coverage(time_coverage)`;
        -- `_extend_temporal_coverage` is itself a no-op on `none`.
        temporal_coverage := _extend_temporal_coverage st.temporal_coverage time_coverage }
    else st
  match pySortFiles st1.files with
  | .ok fs => ({ st1 with files := fs }, false)
  | .error _ => (st1, true)

/-- Lookup of a path in the `files` association list (Python `self._files[file]`,
read access).  Returns `some v` when the path is bound to the value `v`. -/
def lookupFile (p : List Char) : List FileEntry → Option (Option TimeR)
  | [] => none
  | x :: xs => if x.1 = p then some x.2 else lookupFile p xs

/-- The invariant claimed for a `LocalDataSource` after `add_dataset` calls:
the temporal coverage is ordered (`start ≤ end`) and every registered file's
coverage pair lies within it. -/
def DsInv (st : DsState) : Prop :=
  (∀ e ∈ st.files, ∀ p : TimeR, e.2 = some p →
    ∃ c : TimeR, st.temporal_coverage = some c ∧ c.1 ≤ p.1 ∧ p.2 ≤ c.2) ∧
  (∀ c : TimeR, st.temporal_coverage = some c → c.1 ≤ c.2)

/-- Condition on an `add_dataset` coverage argument under which the claimed
invariant is preserved: the supplied coverage is well-formed and, relative to
the current coverage, it is absent, contiguous/extending past one end, or
entirely contained.  (A partially overlapping addition is the counterexample
case: the coverage is left unchanged while the file sticks out.) -/
def GoodAdd (st : DsState) (tc : Option TimeR) : Prop :=
  ∀ t : TimeR, tc = some t → t.1 ≤ t.2 ∧
    (st.temporal_coverage = none ∨ ∃ c : TimeR, st.temporal_coverage = some c ∧
      (t.1 ≥ c.2 ∨ t.2 ≤ c.1 ∨ (c.1 ≤ t.1 ∧ t.2 ≤ c.2)))

/-! ## `_make_local` resource handling

`LocalDataSource._make_local` (local.py lines 199-354), abstracted to the
per-file resource events it performs.  Each remote file is described by its
coverage value and by flags saying whether the remote open, the local open
and the variable writes succeed.  The `finally` block of lines 342-347
closes the remote handle, then closes the local handle and registers the
local file via `add_dataset` whenever the local handle was opened — also on
failure.  An exception raised while processing a file propagates out of
`_make_local`, so no later file is processed.
-/

/-- Description of one remote file as seen by the `_make_local` loop. -/
structure FileSpec where
  cov : Option TimeR
  openRemoteOk : Bool
  openLocalOk : Bool
  writeOk : Bool
deriving DecidableEq

/-- Resource events performed by `_make_local`, tagged with the index of the
file being processed. -/
inductive Ev
  | openR (i : ℕ)
  | closeR (i : ℕ)
  | openL (i : ℕ)
  | closeL (i : ℕ)
  | register (i : ℕ)
  | copy (i : ℕ)
deriving DecidableEq

/-- The file index an event belongs to. -/
def evIdx : Ev → ℕ
  | .openR i => i
  | .closeR i => i
  | .openL i => i
  | .closeL i => i
  | .register i => i
  | .copy i => i

/-- The time-range admission test of local.py line 241:
`not time_range or start >= time_range[0] and end <= time_range[1]`. -/
def inTimeRange (tr : Option TimeR) (c : TimeR) : Bool :=
  match tr with
  | none => true
  | some t => decide (c.1 ≥ t.1 ∧ c.2 ≤ t.2)

/-- Events, failure flag and registration flag for one iteration of the
`for remote_relative_filepath, coverage in self._files.items()` loop of
`_make_local` (local.py 225-352).  `subsetting` is `region or var_names`.
On the subset path the `finally` block closes the remote handle if it was
opened and, if the local handle was opened, closes it and calls
`add_dataset` — also when the variable writes raised. -/
def processFile (tr : Option TimeR) (subsetting : Bool) (i : ℕ) (f : FileSpec) :
    List Ev × Bool × Bool :=
  match f.cov with
  | none => ([], false, false)
  | some c =>
    if inTimeRange tr c then
      if subsetting then
        if f.openRemoteOk = false then ([], true, false)
        else if f.openLocalOk = false then ([.openR i, .closeR i], true, false)
        else if f.writeOk = false then
          ([.openR i, .openL i, .closeR i, .closeL i, .register i], true, true)
        else ([.openR i, .openL i, .closeR i, .closeL i, .register i], false, true)
      else
        if f.writeOk = false then ([.copy i], true, false)
        else ([.copy i, .register i], false, true)
    else ([], false, false)

/-- The `_make_local` loop from file index `i` on: concatenates the events of
the processed files and collects the indices registered in the entry's
manifest, stopping after the first file whose processing raised. -/
def makeLocalGo (tr : Option TimeR) (subsetting : Bool) (i : ℕ) :
    List FileSpec → List Ev × List ℕ
  | [] => ([], [])
  | f :: rest =>
    match processFile tr subsetting i f with
    | (evs, true, reg) => (evs, if reg then [i] else [])
    | (evs, false, reg) =>
      let r2 := makeLocalGo tr subsetting (i + 1) rest
      (evs ++ r2.1, (if reg then [i] else []) ++ r2.2)

/-- Embedding of the `_make_local` per-file loop (local.py 224-353). -/
def make_local (tr : Option TimeR) (subsetting : Bool) (files : List FileSpec) :
    List Ev × List ℕ :=
  makeLocalGo tr subsetting 0 files

/-! ## Spatial subsetting

The region-processing arithmetic of `LocalDataSource._make_local`
(local.py lines 256-322): converting a requested bounding box into integer
slice bounds and recomputing the achieved geographic bounding box, for
ascending and descending axis orientations.  Attribute values are rationals
(`ℚ`); a missing/NaN attribute is `none`, which skips spatial subsetting
(the `isnan` gate of lines 271-273).
-/

/-- The integer slice bounds and recomputed (achieved) geographic bounding
box produced by the region-processing block. -/
structure RegionResult where
  latLo : ℤ
  latHi : ℤ
  lonLo : ℤ
  lonHi : ℤ
  geoLatMin : ℚ
  geoLatMax : ℚ
  geoLonMin : ℚ
  geoLonMax : ℚ
deriving DecidableEq

/-- Python `math.ceil` on a rational, implemented executably as
`-floor (-x)` (the ceiling function). -/
def pyCeil (x : ℚ) : ℤ := -Rat.floor (-x)

/-- The region-processing arithmetic of `_make_local` (local.py 275-322) once
all six geospatial attributes are available.  Arguments: the declared axis
bounds, the two declared resolution attributes
(`geospatial_lat_resolution`, `geospatial_lon_resolution`), the axis
orientations (`latDesc`/`lonDesc` mirror membership in
`descending_data_order`), and the requested bounding box
`[lon_min, lat_min, lon_max, lat_max] = region.bounds`. -/
def processRegionCore (geo_lat_min geo_lat_max geo_lon_min geo_lon_max : ℚ)
    (latResAttr lonResAttr : ℚ) (latDesc lonDesc : Bool)
    (lon_min0 lat_min0 lon_max0 lat_max0 : ℚ) : RegionResult :=
  -- local.py 267-270: `geo_lat_res` is read from 'geospatial_lon_resolution'
  -- and `geo_lon_res` from 'geospatial_lat_resolution' — the reads are swapped.
  let geo_lat_res := lonResAttr
  let geo_lon_res := latResAttr
  -- lines 282-288
  let lat_min1 := if latDesc = false then lat_min0 - geo_lat_min else geo_lat_max - lat_max0
  let lat_max1 := if latDesc = false then lat_max0 - geo_lat_min else geo_lat_max - lat_min0
  -- lines 290-296
  let lon_min1 := if lonDesc = false then lon_min0 - geo_lon_min else geo_lon_max - lon_max0
  let lon_max1 := if lonDesc = false then lon_max0 - geo_lon_min else geo_lon_max - lon_min0
  -- lines 298-301: floor for the lower bound, ceil for the upper bound
  let lat_min2 := Rat.floor (lat_min1 / geo_lat_res)
  let lat_max2 := pyCeil (lat_max1 / geo_lat_res)
  let lon_min2 := Rat.floor (lon_min1 / geo_lon_res)
  let lon_max2 := pyCeil (lon_max1 / geo_lon_res)
  -- lines 306-322: recompute the achieved bounding box
  let gLatMin := if latDesc = false then (lat_min2 : ℚ) * geo_lat_res + geo_lat_min
                 else geo_lat_max - (lat_max2 : ℚ) * geo_lat_res
  let gLatMax := if latDesc = false then (lat_max2 : ℚ) * geo_lat_res + geo_lat_min
                 else geo_lat_max - (lat_min2 : ℚ) * geo_lat_res
  let gLonMin := if lonDesc = false then (lon_min2 : ℚ) * geo_lon_res + geo_lon_min
                 else geo_lon_max - (lon_max2 : ℚ) * geo_lon_res
  let gLonMax := if lonDesc = false then (lon_max2 : ℚ) * geo_lon_res + geo_lon_min
                 else geo_lon_max - (lon_min2 : ℚ) * geo_lon_res
  ⟨lat_min2, lat_max2, lon_min2, lon_max2, gLatMin, gLatMax, gLonMin, gLonMax⟩

/-- The region-processing block including the degenerate gate: if any declared
bounding-box attribute or either resolution attribute is unavailable/NaN,
spatial subsetting is skipped entirely (`process_region` stays false). -/
def processRegion (geoLatMinA geoLatMaxA geoLonMinA geoLonMaxA latResA lonResA : Option ℚ)
    (latDesc lonDesc : Bool) (lon_min0 lat_min0 lon_max0 lat_max0 : ℚ) :
    Option RegionResult :=
  match geoLatMinA, geoLatMaxA, geoLonMinA, geoLonMaxA, latResA, lonResA with
  | some a, some b, some c, some d, some e, some f =>
    some (processRegionCore a b c d e f latDesc lonDesc lon_min0 lat_min0 lon_max0 lat_max0)
  | _, _, _, _, _, _ => none

/-! ## Cache key derivation (`LocalDataStore.generate_uuid`, local.py 656-669)

`generate_uuid` concatenates canonical renderings of the present parameters
onto the source id and hashes the result as a version-3 UUID in the fixed
`_NAMESPACE`.  `TimeRangeLike.format`, `PolygonLike.format` and
`VarNamesLike.format` live in `cate/core/types.py`, which is not among the
sources; they are modelled from the spec ("time range and region each use one
canonical string format; variable set uses a canonical comma-joined,
order-independent format").  `uuid.uuid3` is an external library hash;
following the spec's contract ("any parameter difference must yield a
different key with overwhelming probability") it is modelled as a
collision-free fingerprint of namespace and name.
-/

/-- Decimal rendering of a natural number, most significant digit first. -/
def decNat (n : ℕ) : List Char :=
  if _h : n < 10 then [Nat.digitChar n]
  else decNat (n / 10) ++ [Nat.digitChar (n % 10)]
decreasing_by exact Nat.div_lt_self (by omega) (by omega)

/-- Numeric value of a digit character. -/
def digitVal (c : Char) : ℕ := c.toNat - 48

/-- Fold decimal digits onto an accumulator (inverse of `decNat`). -/
def valFrom (a : ℕ) (l : List Char) : ℕ := l.foldl (fun x c => x * 10 + digitVal c) a

/-- Sign-and-digits rendering of an integer. -/
def decInt (i : ℤ) : List Char :=
  if i < 0 then '-' :: decNat i.natAbs else decNat i.natAbs

/-- Comma-join of a list of strings. -/
def joinComma : List (List Char) → List Char
  | [] => []
  | [x] => x
  | x :: y :: xs => x ++ ',' :: joinComma (y :: xs)

/-- Strings that are nonempty and comma-free (so `joinComma` is injective). -/
def GoodStrs (l : List (List Char)) : Prop :=
  ∀ s ∈ l, s ≠ [] ∧ ∀ c ∈ s, c ≠ ','

instance (l : List (List Char)) : Decidable (GoodStrs l) := by
  unfold GoodStrs
  infer_instance

/-- Modelled from the spec: `TimeRangeLike.format`, one canonical rendering of
a time range (timestamps as natural numbers). -/
def formatTimeRange (tr : ℕ × ℕ) : List Char := joinComma [decNat tr.1, decNat tr.2]

/-- A geographic bounding box with integer-scaled coordinates, standing for
the `Polygon` region parameter. -/
structure RegionBox where
  lonMin : ℤ
  latMin : ℤ
  lonMax : ℤ
  latMax : ℤ
deriving DecidableEq

/-- Modelled from the spec: `PolygonLike.format`, one canonical rendering of a
region's bounding box. -/
def formatRegion (r : RegionBox) : List Char :=
  joinComma [decInt r.lonMin, decInt r.latMin, decInt r.lonMax, decInt r.latMax]

/-- Modelled from the spec: the canonical order-independent variable list —
duplicates removed, sorted lexicographically. -/
def canonVarNames (vs : List (List Char)) : List (List Char) :=
  List.insertionSort (· ≤ ·) vs.dedup

/-- Modelled from the spec: `VarNamesLike.format`, canonical comma-joined and
order-independent. -/
def formatVarNames (vs : List (List Char)) : List Char := joinComma (canonVarNames vs)

/-- The fixed `_NAMESPACE` constant of local.py 68, abstracted to its role as
a namespace tag. -/
def NAMESPACE : List Char := ['c', 'a', 't', 'e']

/-- Modelled from the spec: `uuid.uuid3(namespace, name)`, an external
deterministic hash idealized as a collision-free fingerprint of namespace and
name. -/
def uuid3 (ns name : List Char) : List Char := ns ++ ':' :: name

/-- Embedding of `LocalDataStore.generate_uuid` (local.py 656-669).  A `none`
parameter is falsy and contributes nothing; an empty variable list is falsy
in Python and likewise contributes nothing. -/
def generate_uuid (ref_id : List Char) (time_range : Option (ℕ × ℕ))
    (region : Option RegionBox) (var_names : Option (List (List Char))) : List Char :=
  let r1 := match time_range with
    | some tr => ref_id ++ formatTimeRange tr
    | none => ref_id
  let r2 := match region with
    | some rg => r1 ++ formatRegion rg
    | none => r1
  let r3 := match var_names with
    | some vs => if vs = [] then r2 else r2 ++ formatVarNames vs
    | none => r2
  uuid3 NAMESPACE r3

/-- The contribution of the optional time range to the hashed name. -/
def optTR : Option (ℕ × ℕ) → List Char
  | some t => formatTimeRange t
  | none => []

/-- The contribution of the optional region to the hashed name. -/
def optRG : Option RegionBox → List Char
  | some g => formatRegion g
  | none => []

/-- The contribution of the optional variable list to the hashed name. -/
def optVS : Option (List (List Char)) → List Char
  | some v => if v = [] then [] else formatVarNames v
  | none => []

/-- The full suffix appended to the source id before hashing. -/
def optSuffix (tr : Option (ℕ × ℕ)) (rg : Option RegionBox)
    (vs : Option (List (List Char))) : List Char :=
  optTR tr ++ optRG rg ++ optVS vs

/-! ## `create_data_source` locking (local.py 686-738)

The lock-checking logic of `LocalDataStore.create_data_source`.  The process
table maps pids to create times (microseconds).  The tuple unpacking of
local.py 713-714 is a conditional expression inside a two-element list
literal: it binds `writer_pid` to a generator object when the line contains
a colon (or to the raw string otherwise) and `writer_timestamp` always to
`writer_create_time`, i.e. `-1`.  `psutil.pid_exists` then raises
`TypeError` when comparing that non-int with an integer.
-/

/-- A dynamically typed Python value as bound by the lock-line unpacking. -/
inductive PyVal
  | int (n : ℤ)
  | str (s : List Char)
  | gen
deriving DecidableEq

/-- The error outcomes of `create_data_source`. -/
inductive CreateErr
  | typeError
  | contention
  | alreadyExists
deriving DecidableEq

/-- `psutil.pid_exists`: raises `TypeError` (modelled as `Except.error`) when
the argument is not an integer. -/
def pid_exists (v : PyVal) (procs : List (ℤ × ℤ)) : Except Unit Bool :=
  match v with
  | .int n => .ok (procs.any (fun p => p.1 == n))
  | _ => .error ()

/-- `int(psutil.Process(pid).create_time() * 1_000_000)` looked up in the
process table. -/
def processCreateTime (v : PyVal) (procs : List (ℤ × ℤ)) : ℤ :=
  match v with
  | .int n => (((procs.find? (fun p => p.1 == n)).map Prod.snd).getD 0)
  | _ => 0

/-- The misparenthesized lock-line unpacking of local.py 713-714. -/
def parseLockLine (line : List Char) : PyVal × ℤ :=
  if ':' ∈ line then (PyVal.gen, -1) else (PyVal.str line, -1)

/-- An entry of the store's in-memory index with the fields consulted by the
resume check.  (`variables_info` holds metadata records in the source; Python
equality between records and plain names can only hold when both lists are
empty, which the simple name-list model preserves.) -/
structure SourceRec where
  id : List Char
  spatial : Option (ℤ × ℤ × ℤ × ℤ)
  variables_info : List (List Char)
  is_complete : Bool
deriving DecidableEq

/-- Store state for `create_data_source`: the in-memory index and the
contents of the data source's `.lock` file, when present. -/
structure StoreSt where
  sources : List SourceRec
  lockContent : Option (List Char)
deriving DecidableEq

/-- The shared tail of the existing-entry branch: resume when the spatial
coverage and variables match the request (marking the entry incomplete and
re-writing the lock), else raise "already exists" (local.py 722-727). -/
def resumeOrExists (st : StoreSt) (ds : SourceRec) (region : Option (ℤ × ℤ × ℤ × ℤ))
    (varNames : List (List Char)) (lockFile : Bool) (pid createTime : ℤ) :
    Except CreateErr (StoreSt × SourceRec) :=
  if ds.spatial = region ∧ ds.variables_info = varNames then
    let ds' := { ds with is_complete := false }
    .ok ({ sources := st.sources.map (fun s => if s.id = ds.id then ds' else s)
           lockContent := if lockFile then some (decInt pid ++ ':' :: decInt createTime)
                          else st.lockContent }, ds')
  else .error .alreadyExists

/-- Embedding of `LocalDataStore.create_data_source` (local.py 686-738):
id namespacing, the existing-entry lock check with the mis-bound unpacking,
the resume/contention logic, the fresh-entry creation, and the lock write. -/
def create_data_source (st : StoreSt) (storeId data_source_id : List Char)
    (region : Option (ℤ × ℤ × ℤ × ℤ)) (varNames : List (List Char))
    (lockFile : Bool) (pid : ℤ) (procs : List (ℤ × ℤ)) :
    Except CreateErr (StoreSt × SourceRec) :=
  let dsId := if (storeId ++ ['.']).isPrefixOf data_source_id then data_source_id
              else storeId ++ '.' :: data_source_id
  let create_time := processCreateTime (.int pid) procs
  match st.sources.find? (fun ds => ds.id == dsId) with
  | some ds =>
    if lockFile ∧ st.lockContent.isSome then
      let line := st.lockContent.getD []
      if line ≠ [] then
        let writer_create_time : ℤ := -1
        let p := parseLockLine line
        match pid_exists p.1 procs with
        | .error _ => .error .typeError
        | .ok b =>
          if b = true ∧ p.1 ≠ PyVal.int pid then
            let wct2 := if p.2 > writer_create_time then processCreateTime p.1 procs
                        else writer_create_time
            if wct2 = p.2 then .error .contention
            else resumeOrExists st ds region varNames lockFile pid create_time
          else resumeOrExists st ds region varNames lockFile pid create_time
      else .error .alreadyExists
    else .error .alreadyExists
  | none =>
    let newDs : SourceRec :=
      { id := dsId, spatial := region, variables_info := varNames, is_complete := false }
    .ok ({ sources := st.sources ++ [newDs]
           lockContent := if lockFile then some (decInt pid ++ ':' :: decInt create_time)
                          else st.lockContent }, newDs)

/-! ## JSON round trip (`to_json_dict` / `from_json_dict`, local.py 552-607) -/

/-- Timestamps in microseconds. -/
abbrev Micros := ℕ

/-- Truncate a microsecond timestamp to second precision
(`replace(microsecond=0)`, and the store's second-precision serializer). -/
def truncSec (t : Micros) : Micros := t / 1000000 * 1000000

/-- A value of the `files` mapping: a `(start, end)` tuple, a single
`datetime` (as produced by the short parse branch), or absent. -/
inductive FileCov
  | pair (s e : Micros)
  | single (t : Micros)
deriving DecidableEq

/-- One record of `meta_info['variables']`. -/
structure VarRecord where
  name : Option (List Char)
  units : List Char
  long_name : List Char
  standard_name : List Char
deriving DecidableEq

/-- The `meta_info` ordered mapping, split into the keys the code consults
and the remaining free-form entries. -/
structure MetaInfo where
  varRecords : Option (List VarRecord)
  temporal_coverage_start : Option Micros
  temporal_coverage_end : Option Micros
  other : List (List Char × List Char)
deriving DecidableEq

/-- The empty `meta_info` dict. -/
def MetaInfo.empty : MetaInfo := ⟨none, none, none, []⟩

/-- Python truthiness of the `meta_info` dict (it has at least one key). -/
def MetaInfo.truthy (m : MetaInfo) : Bool :=
  m.varRecords.isSome || m.temporal_coverage_start.isSome ||
    m.temporal_coverage_end.isSome || !m.other.isEmpty

/-- Truthiness of `v.get('name', None)`: present and nonempty. -/
def nameTruthy (v : VarRecord) : Bool :=
  match v.name with
  | some (_ :: _) => true
  | _ => false

/-- The in-memory `LocalDataSource` state relevant to the JSON round trip. -/
structure LocalDataSource where
  id : List Char
  files : List (List Char × Option FileCov)
  temporal_coverage : Option (Micros × Micros)
  spatial_coverage : Option RegionBox
  vars : List (Option (List Char))
  meta_info : MetaInfo
  is_complete : Bool
deriving DecidableEq

/-- The constructor's derivation of the initial temporal coverage from the
files mapping (local.py 109-121): keyed on the first value's type, reading
the last value's end by subscript.  Returns `none` on a Python
`TypeError`/conversion error (subscripting `None` or a `datetime`, or
converting a heterogeneous pair). -/
def deriveInitialCoverage (files : List (List Char × Option FileCov)) :
    Option (Option (Micros × Micros)) :=
  match files with
  | [] => some none
  | f :: _ =>
    match f.2 with
    | some (.pair s _) =>
      match files.getLast? with
      | some (_, some (.pair _ e2)) => some (some (s, e2))
      | _ => none
    | some (.single t) =>
      match files.getLast? with
      | some (_, some (.single t2)) => some (some (t, t2))
      | _ => none
    | none => some none

/-- The `LocalDataSource.__init__` logic relevant to the round trip
(local.py 94-136): coverage defaulting, variable normalization, and the
population of `meta_info['variables']`.  `VarNamesLike.convert` and
`TimeRangeLike.convert` (external, `cate/core/types.py`) are modelled as the
identity on already-normalized values. -/
def mkLocalDataSource (ds_id : List Char) (files : List (List Char × Option FileCov))
    (temporal_coverage : Option (Micros × Micros)) (spatial_coverage : Option RegionBox)
    (varList : List (Option (List Char))) (meta_info : Option MetaInfo) :
    Option LocalDataSource :=
  match (if temporal_coverage.isSome then some temporal_coverage
         else deriveInitialCoverage files) with
  | none => none
  | some tc =>
    let vars := varList
    let mi := meta_info.getD MetaInfo.empty
    let varsRecTruthy : Bool := match mi.varRecords with
      | some (_ :: _) => true
      | _ => false
    let mi' := if vars ≠ [] ∧ varsRecTruthy = false then
        { mi with varRecords := some (vars.map (fun n => ⟨n, [], [], []⟩)) }
      else mi
    some ⟨ds_id, files, tc, spatial_coverage, vars, mi', true⟩

/-- The JSON record shape produced by `to_json_dict`: name, meta_info, and
files as `[path]` or `[path, start, end]` records. -/
structure DsJson where
  name : List Char
  meta_info : MetaInfo
  files : List (List Char × Option (Micros × Micros))
deriving DecidableEq

/-- Embedding of `LocalDataSource.to_json_dict` (local.py 552-563) composed
with the store's JSON date serialization (`_json_default_serializer`, second
precision).  A single-`datetime` files value is unsubscriptable —
`item[1][0]` raises `TypeError`, modelled as `none`. -/
def to_json_dict (ds : LocalDataSource) : Option DsJson :=
  match ds.files.mapM (fun it =>
      match it.2 with
      | some (.pair s e) => some (it.1, some (truncSec s, truncSec e))
      | some (.single _) => none
      | none => some (it.1, none)) with
  | none => none
  | some fs => some ⟨ds.id, ds.meta_info, fs⟩

/-- Embedding of `LocalDataSource.from_json_dict` (local.py 565-607) on
records of the `to_json_dict` shape (the legacy nested `meta_data` key never
occurs in them).  The parse branch is chosen by the length of the FIRST file
record: in the 3-element branch a bare `[path]` record raises `IndexError`
(modelled as `none`); in the 1-element branch a 3-element record contributes
only `(path, parse(item[1]))` — a single datetime. -/
def from_json_dict (j : DsJson) : Option LocalDataSource :=
  let meta_info := j.meta_info
  let varList : List (Option (List Char)) :=
    if meta_info.truthy then
      ((meta_info.varRecords.getD []).filter (fun v => nameTruthy v = false)).map
        (fun v => v.name)
    else []
  let temporal_coverage : Option (Micros × Micros) :=
    if meta_info.truthy then
      match meta_info.temporal_coverage_start, meta_info.temporal_coverage_end with
      | some s, some e => some (s, e)
      | _, _ => none
    else none
  let files_dictOpt : Option (List (List Char × Option FileCov)) :=
    if j.name = [] then some []
    else match j.files with
      | [] => some []
      | (_, some _) :: _ =>
        j.files.mapM (fun it =>
          match it.2 with
          | some (s, e) => some (it.1, some (FileCov.pair (truncSec s) (truncSec e)))
          | none => none)
      | (_, none) :: _ =>
        some (j.files.map (fun it =>
          match it.2 with
          | some (s, _) => (it.1, some (FileCov.single (truncSec s)))
          | none => (it.1, none)))
  match files_dictOpt with
  | none => none
  | some fd =>
    mkLocalDataSource j.name fd temporal_coverage none varList (some meta_info)

/-- The round trip of the persisted record. -/
def roundTrip (ds : LocalDataSource) : Option LocalDataSource :=
  (to_json_dict ds).bind from_json_dict

/-- A concrete entry with one named variable, used to exhibit that the round
trip does not reproduce `variables`. -/
def exC6 : LocalDataSource :=
  ⟨['x'], [(['f'], some (.pair 0 0))], some (0, 0), none, [some ['a']],
   ⟨some [⟨some ['a'], [], [], []⟩], none, none, []⟩, true⟩

/-! # Theorems -/

/-! ## C2: `_extend_temporal_coverage` case analysis -/

/-- C2: for every current temporal coverage and every addition range
(`start ≤ end`), `_extend_temporal_coverage` behaves as specified: absent
coverage becomes the addition; an addition starting at or after the current
end yields `(current.start, addition.end)`; an addition ending at or before
the current start yields `(addition.start, current.end)`; an addition lying
strictly inside the current coverage leaves the coverage unchanged. -/
theorem extend_temporal_coverage_cases :
    (∀ t : TimeR, _extend_temporal_coverage none (some t) = some t) ∧
    (∀ c t : TimeR, t.1 ≥ c.2 →
      _extend_temporal_coverage (some c) (some t) = some (c.1, t.2)) ∧
    (∀ c t : TimeR, c.1 ≤ c.2 → t.1 ≤ t.2 → t.2 ≤ c.1 →
      _extend_temporal_coverage (some c) (some t) = some (t.1, c.2)) ∧
    (∀ c t : TimeR, c.1 < t.1 → t.1 ≤ t.2 → t.2 < c.2 →
      _extend_temporal_coverage (some c) (some t) = some c) := by
  refine ⟨fun t => rfl, fun c t h => ?_, fun c t hc ht h => ?_, fun c t h1 ht h2 => ?_⟩
  · simp only [_extend_temporal_coverage]
    rw [if_pos h]
  · simp only [_extend_temporal_coverage]
    split_ifs with hge
    · have e1 : c.1 = t.1 := by omega
      have e2 : t.2 = c.2 := by omega
      rw [e1, e2]
    · rfl
  · simp only [_extend_temporal_coverage]
    rw [if_neg (by omega), if_neg (by omega)]

/-- Witness for C2: concrete instances of all four cases. -/
theorem extend_temporal_coverage_cases_witness :
    _extend_temporal_coverage none (some ((3 : ℤ), (7 : ℤ))) = some (3, 7) ∧
    _extend_temporal_coverage (some ((0 : ℤ), (5 : ℤ))) (some ((5 : ℤ), (9 : ℤ))) = some (0, 9) ∧
    _extend_temporal_coverage (some ((4 : ℤ), (6 : ℤ))) (some ((1 : ℤ), (2 : ℤ))) = some (1, 6) ∧
    _extend_temporal_coverage (some ((0 : ℤ), (10 : ℤ))) (some ((2 : ℤ), (3 : ℤ))) = some (0, 10) :=
  ⟨extend_temporal_coverage_cases.1 (3, 7),
   extend_temporal_coverage_cases.2.1 (0, 5) (5, 9) (by decide),
   extend_temporal_coverage_cases.2.2.1 (4, 6) (1, 2) (by decide) (by decide) (by decide),
   extend_temporal_coverage_cases.2.2.2 (0, 10) (2, 3) (by decide) (by decide) (by decide)⟩

/-! ## C3: `_reduce_temporal_coverage` -/

/-- C3 counterexample: applying `_reduce_temporal_coverage` with a removal
range equal to the full current coverage leaves the coverage unchanged; it
does not yield an empty (absent) coverage as the claim states. -/
theorem reduce_temporal_coverage_full_range_not_emptied :
    _reduce_temporal_coverage (some ((0 : ℤ), (10 : ℤ))) (some ((0 : ℤ), (10 : ℤ)))
      = some (0, 10) := by decide

/-- C3 (amended): for every non-absent current coverage, a removal range
sharing no boundary with the current coverage leaves it unchanged, and a
removal range equal to the full current coverage also leaves it unchanged
(the implementation never empties the coverage). -/
theorem reduce_temporal_coverage_spec :
    (∀ c t : TimeR, t.1 ≠ c.1 → t.2 ≠ c.2 →
      _reduce_temporal_coverage (some c) (some t) = some c) ∧
    (∀ c : TimeR, _reduce_temporal_coverage (some c) (some c) = some c) := by
  constructor
  · intro c t h1 h2
    simp only [_reduce_temporal_coverage]
    rw [if_neg (show ¬(t.1 > c.1 ∧ t.2 = c.2) from fun hA => h2 hA.2)]
    rw [if_neg (show ¬(t.2 < c.2 ∧ t.1 = c.1) from fun hB => h1 hB.2)]
  · intro c
    simp only [_reduce_temporal_coverage]
    rw [if_neg (show ¬(c.1 > c.1 ∧ True) by simp)]
    rw [if_neg (show ¬(c.2 < c.2 ∧ c.1 = c.1) by omega)]

/-- Witness for C3 (amended): concrete instances of both parts. -/
theorem reduce_temporal_coverage_spec_witness :
    _reduce_temporal_coverage (some ((0 : ℤ), (10 : ℤ))) (some ((2 : ℤ), (8 : ℤ))) = some (0, 10) ∧
    _reduce_temporal_coverage (some ((1 : ℤ), (4 : ℤ))) (some ((1 : ℤ), (4 : ℤ))) = some (1, 4) :=
  ⟨reduce_temporal_coverage_spec.1 (0, 10) (2, 8) (by decide) (by decide),
   reduce_temporal_coverage_spec.2 (1, 4)⟩

/-! ## C9: manifest ordering after `add_dataset` -/

/-- C9: on a manifest mixing a file with a coverage pair and a file without
one, `add_dataset` raises a Python `TypeError` while re-sorting (the tuple
key is compared against the `datetime.max` sentinel), instead of sorting the
undefined-coverage file last as the claim states.  The raised flag of the
embedding is `true` and the state retains the pre-sort insertion. -/
theorem add_dataset_mixed_manifest_raises :
    add_dataset ⟨[(['a'], some ((10 : ℤ), (20 : ℤ)))], some ((10 : ℤ), (20 : ℤ))⟩
      ['b'] none false
      = (⟨[(['a'], some ((10 : ℤ), (20 : ℤ))), (['b'], none)],
          some ((10 : ℤ), (20 : ℤ))⟩, true) := by decide

/-! ## Permutation and lookup lemmas for the manifest sort -/

/-- A successful `insertSorted` permutes the inserted element into the list. -/
theorem insertSorted_perm :
    ∀ (l : List FileEntry) (x : FileEntry) (r : List FileEntry),
      insertSorted x l = .ok r → r.Perm (x :: l) := by
  intro l
  induction l with
  | nil =>
    intro x r h
    simp only [insertSorted] at h
    injection h with h
    subst h
    exact List.Perm.refl _
  | cons y ys ih =>
    intro x r h
    simp only [insertSorted] at h
    cases hp : pyLt (sortKey x.2) (sortKey y.2) with
    | error e => rw [hp] at h; exact Except.noConfusion h
    | ok b =>
      rw [hp] at h
      cases b with
      | true =>
        injection h with h
        subst h
        exact List.Perm.refl _
      | false =>
        cases hr : insertSorted x ys with
        | error e => rw [hr] at h; exact Except.noConfusion h
        | ok r' =>
          rw [hr] at h
          injection h with h
          subst h
          exact ((ih x r' hr).cons y).trans (List.Perm.swap x y ys)

/-- A successful `insertAll` returns a permutation of accumulator plus input. -/
theorem insertAll_perm :
    ∀ (l acc r : List FileEntry), insertAll acc l = .ok r → r.Perm (acc ++ l) := by
  intro l
  induction l with
  | nil =>
    intro acc r h
    simp only [insertAll] at h
    injection h with h
    subst h
    simp
  | cons x xs ih =>
    intro acc r h
    simp only [insertAll] at h
    cases hi : insertSorted x acc with
    | error e => rw [hi] at h; exact Except.noConfusion h
    | ok acc' =>
      rw [hi] at h
      have h1 := insertSorted_perm acc x acc' hi
      have h2 := ih acc' r h
      exact (h2.trans (h1.append_right xs)).trans List.perm_middle.symm

/-- A successful `pySortFiles` returns a permutation of its input. -/
theorem pySortFiles_perm (l r : List FileEntry) (h : pySortFiles l = .ok r) : r.Perm l := by
  have := insertAll_perm l [] r h
  simpa using this

/-- `lookupFile` is invariant under permutation of a duplicate-free manifest. -/
theorem lookupFile_perm :
    ∀ {l₁ l₂ : List FileEntry}, l₁.Perm l₂ → (l₁.map Prod.fst).Nodup →
      ∀ p, lookupFile p l₁ = lookupFile p l₂ := by
  intro l₁ l₂ h
  induction h with
  | nil => intro _ p; rfl
  | cons x h ih =>
    intro hnd p
    simp only [lookupFile]
    by_cases hx : x.1 = p
    · rw [if_pos hx, if_pos hx]
    · rw [if_neg hx, if_neg hx]
      exact ih (by simp only [List.map_cons, List.nodup_cons] at hnd; exact hnd.2) p
  | swap x y l =>
    intro hnd p
    have hxy : y.1 ≠ x.1 := by
      simp only [List.map_cons, List.nodup_cons, List.mem_cons] at hnd
      exact fun e => hnd.1 (Or.inl e)
    simp only [lookupFile]
    by_cases h1 : y.1 = p <;> by_cases h2 : x.1 = p
    · exact absurd (h1.trans h2.symm) hxy
    · simp [h1, h2]
    · simp [h1, h2]
    · simp [h1, h2]
  | trans h1 h2 ih1 ih2 =>
    intro hnd p
    have hnd2 := ((h1.map Prod.fst).nodup_iff).mp hnd
    exact (ih1 hnd p).trans (ih2 hnd2 p)

/-! ## C10: `add_dataset` frame effect for already-present paths -/

/-- C10: calling `add_dataset` with `update = false` for a file path already
present in the manifest leaves every path's recorded coverage unchanged
(lookups are preserved), does not extend the entry's temporal coverage, and
inserts no path (the key set is unchanged). -/
theorem add_dataset_existing_path_frame (st : DsState) (file : List Char) (tc : Option TimeR)
    (hnd : (st.files.map Prod.fst).Nodup) (hmem : file ∈ st.files.map Prod.fst) :
    (add_dataset st file tc false).1.temporal_coverage = st.temporal_coverage ∧
    (∀ p, lookupFile p (add_dataset st file tc false).1.files = lookupFile p st.files) ∧
    (∀ p, p ∈ (add_dataset st file tc false).1.files.map Prod.fst ↔
      p ∈ st.files.map Prod.fst) := by
  have hcond : ¬(false = true ∨ file ∉ st.files.map Prod.fst) := by simp [hmem]
  simp only [add_dataset, if_neg hcond]
  cases hs : pySortFiles st.files with
  | error e => exact ⟨rfl, fun p => rfl, fun p => Iff.rfl⟩
  | ok fs =>
    have hperm := pySortFiles_perm st.files fs hs
    refine ⟨rfl, fun p => ?_, fun p => ?_⟩
    · exact lookupFile_perm hperm (((hperm.map Prod.fst).nodup_iff).mpr hnd) p
    · exact (hperm.map Prod.fst).mem_iff

/-- Witness for C10 at a concrete single-file state. -/
theorem add_dataset_existing_path_frame_witness :
    (add_dataset ⟨[(['a'], some ((1 : ℤ), (2 : ℤ)))], some ((1 : ℤ), (2 : ℤ))⟩
        ['a'] (some ((5 : ℤ), (9 : ℤ))) false).1.temporal_coverage
      = (⟨[(['a'], some ((1 : ℤ), (2 : ℤ)))], some ((1 : ℤ), (2 : ℤ))⟩ : DsState).temporal_coverage ∧
    lookupFile ['a']
        (add_dataset ⟨[(['a'], some ((1 : ℤ), (2 : ℤ)))], some ((1 : ℤ), (2 : ℤ))⟩
          ['a'] (some ((5 : ℤ), (9 : ℤ))) false).1.files
      = lookupFile ['a'] (⟨[(['a'], some ((1 : ℤ), (2 : ℤ)))],
          some ((1 : ℤ), (2 : ℤ))⟩ : DsState).files :=
  ⟨(add_dataset_existing_path_frame
      ⟨[(['a'], some ((1 : ℤ), (2 : ℤ)))], some ((1 : ℤ), (2 : ℤ))⟩
      ['a'] (some ((5 : ℤ), (9 : ℤ))) (by decide) (by decide)).1,
   (add_dataset_existing_path_frame
      ⟨[(['a'], some ((1 : ℤ), (2 : ℤ)))], some ((1 : ℤ), (2 : ℤ))⟩
      ['a'] (some ((5 : ℤ), (9 : ℤ))) (by decide) (by decide)).2.1 ['a']⟩

/-! ## C7: temporal coverage invariant after `add_dataset` -/

/-- Membership in the result of a Python dict assignment. -/
theorem dictAssign_mem {fs : List FileEntry} {file : List Char} {tc : Option TimeR}
    {e : FileEntry} (he : e ∈ dictAssign fs file tc) : e = (file, tc) ∨ e ∈ fs := by
  unfold dictAssign at he
  split_ifs at he with hmem
  · obtain ⟨q, hq, hqe⟩ := List.mem_map.mp he
    by_cases hq1 : q.1 = file
    · rw [if_pos hq1] at hqe
      exact Or.inl hqe.symm
    · rw [if_neg hq1] at hqe
      exact Or.inr (hqe ▸ hq)
  · rcases List.mem_append.mp he with h | h
    · exact Or.inr h
    · exact Or.inl (by simpa using h)

/-- The invariant only depends on the manifest up to permutation. -/
theorem dsInv_of_perm {fs fs' : List FileEntry} {c : Option TimeR}
    (hp : fs'.Perm fs) (h : DsInv ⟨fs, c⟩) : DsInv ⟨fs', c⟩ :=
  ⟨fun e he p hpe => h.1 e (hp.subset he) p hpe, h.2⟩

/-- One `add_dataset` mutation step (dict assignment plus coverage extension)
preserves the invariant for a good addition. -/
theorem dsInv_step (st : DsState) (file : List Char) (tc : Option TimeR)
    (hinv : DsInv st) (hgood : GoodAdd st tc) :
    DsInv ⟨dictAssign st.files file tc,
      _extend_temporal_coverage st.temporal_coverage tc⟩ := by
  cases tc with
  | none =>
    refine ⟨fun e he p hpe => ?_, hinv.2⟩
    rcases dictAssign_mem he with rfl | he'
    · exact Option.noConfusion hpe
    · exact hinv.1 e he' p hpe
  | some t =>
    obtain ⟨hwf, hpos⟩ := hgood t rfl
    cases hcov : st.temporal_coverage with
    | none =>
      refine ⟨fun e he p hpe => ?_, fun c hc => ?_⟩
      · rcases dictAssign_mem he with rfl | he'
        · injection hpe with hpe
          subst hpe
          exact ⟨t, rfl, le_refl _, le_refl _⟩
        · obtain ⟨c0, hc0, _, _⟩ := hinv.1 e he' p hpe
          rw [hcov] at hc0
          exact Option.noConfusion hc0
      · simp only [_extend_temporal_coverage] at hc
        injection hc with hc
        subst hc
        exact hwf
    | some c0 =>
      have hc0wf : c0.1 ≤ c0.2 := hinv.2 c0 hcov
      have hdisj : t.1 ≥ c0.2 ∨ t.2 ≤ c0.1 ∨ (c0.1 ≤ t.1 ∧ t.2 ≤ c0.2) := by
        rcases hpos with h | ⟨c', hc', hd⟩
        · rw [h] at hcov; exact Option.noConfusion hcov
        · rw [hc'] at hcov
          injection hcov with e
          exact e ▸ hd
      have hcont : ∀ q : TimeR, (c0.1 ≤ q.1 ∧ q.2 ≤ c0.2) ∨ q = t →
          ∃ c : TimeR,
            _extend_temporal_coverage (some c0) (some t) = some c ∧
            c.1 ≤ q.1 ∧ q.2 ≤ c.2 := by
        intro q hq
        have hq' : (c0.1 ≤ q.1 ∧ q.2 ≤ c0.2) ∨ (q.1 = t.1 ∧ q.2 = t.2) := by
          rcases hq with h | rfl
          · exact Or.inl h
          · exact Or.inr ⟨rfl, rfl⟩
        simp only [_extend_temporal_coverage]
        split_ifs with hA hB
        · exact ⟨(c0.1, t.2), rfl, by omega, by omega⟩
        · exact ⟨(t.1, c0.2), rfl, by omega, by omega⟩
        · exact ⟨c0, rfl, by omega, by omega⟩
      refine ⟨fun e he p hpe => ?_, fun c hc => ?_⟩
      · rcases dictAssign_mem he with rfl | he'
        · injection hpe with hpe
          subst hpe
          exact hcont t (Or.inr rfl)
        · obtain ⟨c', hc', hb1, hb2⟩ := hinv.1 e he' p hpe
          rw [hcov] at hc'
          injection hc' with hc'
          subst hc'
          exact hcont p (Or.inl ⟨hb1, hb2⟩)
      · simp only [_extend_temporal_coverage] at hc
        split_ifs at hc with hA hB
        · injection hc with hc
          subst hc
          exact show c0.1 ≤ t.2 by omega
        · injection hc with hc
          subst hc
          exact show t.1 ≤ c0.2 by omega
        · injection hc with hc
          subst hc
          exact hc0wf

/-- C7 (amended): the invariant (coverage ordered, every registered file's
coverage inside the entry coverage) is preserved by `add_dataset` provided
the supplied coverage is well-formed and is, relative to the current
coverage, absent, extending past one end (starting at or after the current
end / ending at or before the current start), or entirely contained.  A
partially overlapping addition violates containment (see counterexample). -/
theorem add_dataset_invariant_preserved (st : DsState) (file : List Char) (tc : Option TimeR)
    (update : Bool) (hinv : DsInv st) (hgood : GoodAdd st tc) :
    DsInv (add_dataset st file tc update).1 := by
  by_cases hcond : (update = true ∨ file ∉ st.files.map Prod.fst)
  · simp only [add_dataset, if_pos hcond]
    have h1 := dsInv_step st file tc hinv hgood
    cases hs : pySortFiles (dictAssign st.files file tc) with
    | error e => exact h1
    | ok fs => exact dsInv_of_perm (pySortFiles_perm _ _ hs) h1
  · simp only [add_dataset, if_neg hcond]
    cases hs : pySortFiles st.files with
    | error e => exact hinv
    | ok fs =>
      have : DsInv ⟨st.files, st.temporal_coverage⟩ := hinv
      exact dsInv_of_perm (pySortFiles_perm _ _ hs) this

/-- C7 counterexample: two `add_dataset` calls from an empty entry — the
second with a coverage straddling the first — leave the straddling file's
coverage partly outside the entry's unchanged temporal coverage, refuting
the claimed invariant. -/
theorem add_dataset_straddling_breaks_containment :
    (add_dataset (add_dataset ⟨[], none⟩ ['f', '1'] (some ((10 : ℤ), (20 : ℤ))) false).1
        ['f', '2'] (some ((5 : ℤ), (25 : ℤ))) false).1
      = ⟨[(['f', '2'], some (5, 25)), (['f', '1'], some (10, 20))], some (10, 20)⟩ ∧
    ¬ DsInv ⟨[(['f', '2'], some (5, 25)), (['f', '1'], some (10, 20))], some (10, 20)⟩ := by
  constructor
  · decide
  · intro hinv
    obtain ⟨c, hc, hle1, hle2⟩ :=
      hinv.1 (['f', '2'], some (5, 25)) (by simp) (5, 25) rfl
    simp only [] at hc
    injection hc with hc
    subst hc
    omega

/-- Witness for C7 (amended) at a concrete good addition to an empty entry. -/
theorem add_dataset_invariant_preserved_witness :
    DsInv (add_dataset ⟨[], none⟩ ['f'] (some ((1 : ℤ), (2 : ℤ))) false).1 :=
  add_dataset_invariant_preserved ⟨[], none⟩ ['f'] (some ((1 : ℤ), (2 : ℤ))) false
    (by simp [DsInv])
    (fun t ht => by
      injection ht with h
      subst h
      exact ⟨by decide, Or.inl rfl⟩)

/-! ## C8: `_make_local` handle closing and registration-on-failure -/

/-- Every event emitted while processing file `i` carries index `i`. -/
theorem processFile_idx (tr : Option TimeR) (sub : Bool) (i : ℕ) (f : FileSpec) :
    ∀ e ∈ (processFile tr sub i f).1, evIdx e = i := by
  intro e he
  unfold processFile at he
  split at he
  · simp at he
  · split_ifs at he <;> fin_cases he <;> rfl

/-- Within one file's events, an opened remote handle is always closed. -/
theorem processFile_openR_closeR (tr : Option TimeR) (sub : Bool) (i : ℕ) (f : FileSpec)
    (j : ℕ) :
    Ev.openR j ∈ (processFile tr sub i f).1 → Ev.closeR j ∈ (processFile tr sub i f).1 := by
  rcases hcv : f.cov with _ | c
  · simp [processFile, hcv]
  · simp only [processFile, hcv]
    split_ifs <;> simp

/-- All events of the loop starting at file index `i` have index at least `i`. -/
theorem makeLocalGo_idx_ge (tr : Option TimeR) (sub : Bool) :
    ∀ (fs : List FileSpec) (i : ℕ), ∀ e ∈ (makeLocalGo tr sub i fs).1, i ≤ evIdx e := by
  intro fs
  induction fs with
  | nil => intro i e he; simp [makeLocalGo] at he
  | cons f rest ih =>
    intro i e he
    simp only [makeLocalGo] at he
    rcases hp : processFile tr sub i f with ⟨evs, fail, reg⟩
    rw [hp] at he
    cases fail with
    | true =>
      simp only at he
      have := processFile_idx tr sub i f e (by rw [hp]; exact he)
      omega
    | false =>
      simp only at he
      rcases List.mem_append.mp he with h | h
      · have := processFile_idx tr sub i f e (by rw [hp]; exact h)
        omega
      · have := ih (i + 1) e h
        omega

/-- A constant-index event list maps to a sorted index list. -/
theorem sorted_map_of_const_idx (l : List Ev) (n : ℕ) (h : ∀ e ∈ l, evIdx e = n) :
    (l.map evIdx).Sorted (· ≤ ·) := by
  induction l with
  | nil => simp
  | cons x xs ih =>
    simp only [List.map_cons, List.Sorted]
    refine List.Pairwise.cons (fun b hb => ?_) (ih (fun e he => h e (List.mem_cons_of_mem x he)))
    obtain ⟨e, he, rfl⟩ := List.mem_map.mp hb
    rw [h x (List.mem_cons_self x xs), h e (List.mem_cons_of_mem x he)]

/-- The `_make_local` event trace is grouped by file: the file indices of the
events appear in nondecreasing order. -/
theorem makeLocalGo_sorted (tr : Option TimeR) (sub : Bool) :
    ∀ (fs : List FileSpec) (i : ℕ),
      ((makeLocalGo tr sub i fs).1.map evIdx).Sorted (· ≤ ·) := by
  intro fs
  induction fs with
  | nil => intro i; simp [makeLocalGo]
  | cons f rest ih =>
    intro i
    simp only [makeLocalGo]
    rcases hp : processFile tr sub i f with ⟨evs, fail, reg⟩
    have hconst : ∀ e ∈ evs, evIdx e = i := by
      intro e he; exact processFile_idx tr sub i f e (by rw [hp]; exact he)
    cases fail with
    | true =>
      simp only []
      exact sorted_map_of_const_idx evs i hconst
    | false =>
      simp only [List.map_append]
      rw [List.Sorted, List.pairwise_append]
      refine ⟨sorted_map_of_const_idx evs i hconst, ih (i + 1), ?_⟩
      intro a ha b hb
      obtain ⟨ea, hea, rfl⟩ := List.mem_map.mp ha
      obtain ⟨eb, heb, rfl⟩ := List.mem_map.mp hb
      have h1 := hconst ea hea
      have h2 := makeLocalGo_idx_ge tr sub rest (i + 1) eb heb
      omega

/-- Every remote handle opened by the loop is closed by the loop. -/
theorem makeLocalGo_openR_closeR (tr : Option TimeR) (sub : Bool) :
    ∀ (fs : List FileSpec) (i j : ℕ),
      Ev.openR j ∈ (makeLocalGo tr sub i fs).1 →
      Ev.closeR j ∈ (makeLocalGo tr sub i fs).1 := by
  intro fs
  induction fs with
  | nil => intro i j h; simp [makeLocalGo] at h
  | cons f rest ih =>
    intro i j h
    simp only [makeLocalGo] at h ⊢
    rcases hp : processFile tr sub i f with ⟨evs, fail, reg⟩
    rw [hp] at h
    cases fail with
    | true =>
      simp only at h ⊢
      have := processFile_openR_closeR tr sub i f j (by rw [hp]; exact h)
      rw [hp] at this
      exact this
    | false =>
      simp only at h ⊢
      rcases List.mem_append.mp h with h' | h'
      · have := processFile_openR_closeR tr sub i f j (by rw [hp]; exact h')
        rw [hp] at this
        exact List.mem_append.mpr (Or.inl this)
      · exact List.mem_append.mpr (Or.inr (ih (i + 1) j h'))

/-- C8 (amended): in `_make_local`, every remote handle opened for a file's
subset write is closed, and the event trace is grouped by file in increasing
order (so the close of file `i` happens before any event of a later file),
regardless of per-file success or failure.  However, a local file whose
variable writes failed after both handles were opened IS registered in the
entry's manifest by the `finally` block — the claim's second half is the
opposite of what the code does (see the counterexample). -/
theorem make_local_handle_discipline (tr : Option TimeR) (sub : Bool) (files : List FileSpec) :
    ((make_local tr sub files).1.map evIdx).Sorted (· ≤ ·) ∧
    (∀ j, Ev.openR j ∈ (make_local tr sub files).1 →
      Ev.closeR j ∈ (make_local tr sub files).1) ∧
    (∀ (i : ℕ) (f : FileSpec) (rest : List FileSpec) (c : TimeR),
      f.cov = some c → inTimeRange tr c = true → f.openRemoteOk = true →
      f.openLocalOk = true → f.writeOk = false →
      Ev.register i ∈ (makeLocalGo tr true i (f :: rest)).1 ∧
      i ∈ (makeLocalGo tr true i (f :: rest)).2) := by
  refine ⟨makeLocalGo_sorted tr sub files 0,
    fun j => makeLocalGo_openR_closeR tr sub files 0 j,
    fun i f rest c hc hr ho hl hw => ?_⟩
  simp [makeLocalGo, processFile, hc, hr, ho, hl, hw]

/-- C8 counterexample: a single subset file whose variable writes fail (with
both handles opened) still ends up registered in the entry's manifest — the
partially written file remains resolvable from the entry, contradicting the
claim. -/
theorem make_local_failed_write_still_registered :
    make_local none true [⟨some ((0 : ℤ), (1 : ℤ)), true, true, false⟩]
      = ([.openR 0, .openL 0, .closeR 0, .closeL 0, .register 0], [0]) := by decide

/-- Witness for C8 (amended), instantiating the registration-on-failure part
at a concrete failing file. -/
theorem make_local_handle_discipline_witness :
    Ev.register 0 ∈ (makeLocalGo none true 0 [⟨some ((0 : ℤ), (1 : ℤ)), true, true, false⟩]).1 ∧
    0 ∈ (makeLocalGo none true 0 [⟨some ((0 : ℤ), (1 : ℤ)), true, true, false⟩]).2 :=
  (make_local_handle_discipline none true []).2.2 0
    ⟨some ((0 : ℤ), (1 : ℤ)), true, true, false⟩ [] ((0 : ℤ), (1 : ℤ))
    rfl (by decide) rfl rfl rfl

/-! ## C4: spatial slice bounds and achieved bounding box -/

/-- `Rat.floor` agrees with the mathematical floor. -/
theorem ratFloor_eq_intFloor (q : ℚ) : Rat.floor q = Int.floor q :=
  (Rat.floor_def' q).trans Rat.floor_def.symm

/-- `pyCeil` agrees with the mathematical ceiling. -/
theorem pyCeil_eq_intCeil (q : ℚ) : pyCeil q = Int.ceil q := by
  unfold pyCeil
  rw [ratFloor_eq_intFloor, Int.floor_neg, neg_neg]

/-- Flooring the quotient never overshoots: `floor (x / r) * r ≤ x`. -/
theorem floor_mul_le (x r : ℚ) (hr : 0 < r) : (Rat.floor (x / r) : ℚ) * r ≤ x := by
  rw [ratFloor_eq_intFloor]
  have h1 : ((Int.floor (x / r) : ℚ)) ≤ x / r := Int.floor_le _
  have h2 : ((Int.floor (x / r) : ℚ)) * r ≤ (x / r) * r :=
    mul_le_mul_of_nonneg_right h1 hr.le
  rwa [div_mul_cancel₀ x hr.ne'] at h2

/-- Ceiling the quotient never undershoots: `x ≤ ceil (x / r) * r`. -/
theorem le_ceil_mul (x r : ℚ) (hr : 0 < r) : x ≤ (pyCeil (x / r) : ℚ) * r := by
  rw [pyCeil_eq_intCeil]
  have h1 : x / r ≤ ((Int.ceil (x / r) : ℚ)) := Int.le_ceil _
  have h2 : (x / r) * r ≤ ((Int.ceil (x / r) : ℚ)) * r :=
    mul_le_mul_of_nonneg_right h1 hr.le
  rwa [div_mul_cancel₀ x hr.ne'] at h2

/-- C4 (amended): whenever all four declared bounding-box attributes and both
resolution attributes are numbers, the integer slice bounds are obtained by
flooring the lower bound and ceiling the upper bound after dividing by the
resolution value the code binds for that axis — which, due to the swapped
attribute reads of local.py 267-270, is the OTHER axis's declared resolution
attribute — and the recomputed achieved geographic bounding box is a superset
of the requested bounding box and aligned to the used resolution grid, for
both ascending and descending axis orientations. -/
theorem processRegion_spec (glm glM gom goM latResAttr lonResAttr : ℚ)
    (latDesc lonDesc : Bool) (lonMinR latMinR lonMaxR latMaxR : ℚ)
    (hlat : 0 < latResAttr) (hlon : 0 < lonResAttr) :
    processRegion (some glm) (some glM) (some gom) (some goM)
        (some latResAttr) (some lonResAttr) latDesc lonDesc
        lonMinR latMinR lonMaxR latMaxR
      = some (processRegionCore glm glM gom goM latResAttr lonResAttr latDesc lonDesc
          lonMinR latMinR lonMaxR latMaxR) ∧
    (processRegionCore glm glM gom goM latResAttr lonResAttr latDesc lonDesc
        lonMinR latMinR lonMaxR latMaxR).latLo
      = Rat.floor ((if latDesc = false then latMinR - glm else glM - latMaxR) / lonResAttr) ∧
    (processRegionCore glm glM gom goM latResAttr lonResAttr latDesc lonDesc
        lonMinR latMinR lonMaxR latMaxR).latHi
      = pyCeil ((if latDesc = false then latMaxR - glm else glM - latMinR) / lonResAttr) ∧
    (processRegionCore glm glM gom goM latResAttr lonResAttr latDesc lonDesc
        lonMinR latMinR lonMaxR latMaxR).lonLo
      = Rat.floor ((if lonDesc = false then lonMinR - gom else goM - lonMaxR) / latResAttr) ∧
    (processRegionCore glm glM gom goM latResAttr lonResAttr latDesc lonDesc
        lonMinR latMinR lonMaxR latMaxR).lonHi
      = pyCeil ((if lonDesc = false then lonMaxR - gom else goM - lonMinR) / latResAttr) ∧
    (processRegionCore glm glM gom goM latResAttr lonResAttr latDesc lonDesc
        lonMinR latMinR lonMaxR latMaxR).geoLatMin ≤ latMinR ∧
    latMaxR ≤ (processRegionCore glm glM gom goM latResAttr lonResAttr latDesc lonDesc
        lonMinR latMinR lonMaxR latMaxR).geoLatMax ∧
    (processRegionCore glm glM gom goM latResAttr lonResAttr latDesc lonDesc
        lonMinR latMinR lonMaxR latMaxR).geoLonMin ≤ lonMinR ∧
    lonMaxR ≤ (processRegionCore glm glM gom goM latResAttr lonResAttr latDesc lonDesc
        lonMinR latMinR lonMaxR latMaxR).geoLonMax ∧
    (∃ k : ℤ, (processRegionCore glm glM gom goM latResAttr lonResAttr latDesc lonDesc
        lonMinR latMinR lonMaxR latMaxR).geoLatMin
      = (if latDesc = false then glm + (k : ℚ) * lonResAttr else glM - (k : ℚ) * lonResAttr)) ∧
    (∃ k : ℤ, (processRegionCore glm glM gom goM latResAttr lonResAttr latDesc lonDesc
        lonMinR latMinR lonMaxR latMaxR).geoLatMax
      = (if latDesc = false then glm + (k : ℚ) * lonResAttr else glM - (k : ℚ) * lonResAttr)) ∧
    (∃ k : ℤ, (processRegionCore glm glM gom goM latResAttr lonResAttr latDesc lonDesc
        lonMinR latMinR lonMaxR latMaxR).geoLonMin
      = (if lonDesc = false then gom + (k : ℚ) * latResAttr else goM - (k : ℚ) * latResAttr)) ∧
    (∃ k : ℤ, (processRegionCore glm glM gom goM latResAttr lonResAttr latDesc lonDesc
        lonMinR latMinR lonMaxR latMaxR).geoLonMax
      = (if lonDesc = false then gom + (k : ℚ) * latResAttr else goM - (k : ℚ) * latResAttr)) := by
  cases latDesc <;> cases lonDesc <;>
    simp only [processRegionCore, processRegion, Bool.true_eq_false, if_true, if_false,
      reduceIte] <;>
    refine ⟨?_, ?_, ?_, ?_, ?_, ?_, ?_, ?_, ?_, ?_, ?_, ?_, ?_⟩ <;>
    first
      | trivial
      | (have h := floor_mul_le (latMinR - glm) lonResAttr hlon; linarith)
      | (have h := le_ceil_mul (latMaxR - glm) lonResAttr hlon; linarith)
      | (have h := le_ceil_mul (glM - latMinR) lonResAttr hlon; linarith)
      | (have h := floor_mul_le (glM - latMaxR) lonResAttr hlon; linarith)
      | (have h := floor_mul_le (lonMinR - gom) latResAttr hlat; linarith)
      | (have h := le_ceil_mul (lonMaxR - gom) latResAttr hlat; linarith)
      | (have h := le_ceil_mul (goM - lonMinR) latResAttr hlat; linarith)
      | (have h := floor_mul_le (goM - lonMaxR) latResAttr hlat; linarith)
      | (refine ⟨Rat.floor ((latMinR - glm) / lonResAttr), ?_⟩; ring1)
      | (refine ⟨pyCeil ((latMaxR - glm) / lonResAttr), ?_⟩; ring1)
      | (refine ⟨pyCeil ((glM - latMinR) / lonResAttr), ?_⟩; ring1)
      | (refine ⟨Rat.floor ((glM - latMaxR) / lonResAttr), ?_⟩; ring1)
      | (refine ⟨Rat.floor ((lonMinR - gom) / latResAttr), ?_⟩; ring1)
      | (refine ⟨pyCeil ((lonMaxR - gom) / latResAttr), ?_⟩; ring1)
      | (refine ⟨pyCeil ((goM - lonMinR) / latResAttr), ?_⟩; ring1)
      | (refine ⟨Rat.floor ((goM - lonMaxR) / latResAttr), ?_⟩; ring1)

/-- C4 counterexample: with distinct declared resolutions
(`geospatial_lat_resolution = 4`, `geospatial_lon_resolution = 2`), the lat
slice lower bound divides by 2 — the LON resolution attribute — yielding 2,
whereas the claim's formula (dividing by the lat axis resolution 4) yields 1:
the attribute reads are swapped. -/
theorem processRegion_resolution_swap :
    (processRegionCore 0 90 0 90 4 2 false false 0 4 0 8).latLo = 2 ∧
    (2 : ℤ) ≠ Rat.floor ((4 : ℚ) / 4) := by
  constructor
  · show Rat.floor ((4 - 0 : ℚ) / 2) = 2
    rw [ratFloor_eq_intFloor]
    norm_num
  · rw [ratFloor_eq_intFloor]
    norm_num

/-- Witness for C4 (amended) at the spec's own example: ascending axes with
bounds `[-90, 90]`, resolution `1/4`, requested box `[-10, -5]` — the
achieved latitude bounds form a superset of the request. -/
theorem processRegion_spec_witness :
    (processRegionCore (-90) 90 (-180) 180 (1/4) (1/4) false false
        (-10) (-10) (-5) (-5)).geoLatMin ≤ (-10 : ℚ) ∧
    ((-5 : ℚ)) ≤ (processRegionCore (-90) 90 (-180) 180 (1/4) (1/4) false false
        (-10) (-10) (-5) (-5)).geoLatMax :=
  ⟨(processRegion_spec (-90) 90 (-180) 180 (1/4) (1/4) false false
      (-10) (-10) (-5) (-5) (by norm_num) (by norm_num)).2.2.2.2.2.1,
   (processRegion_spec (-90) 90 (-180) 180 (1/4) (1/4) false false
      (-10) (-10) (-5) (-5) (by norm_num) (by norm_num)).2.2.2.2.2.2.1⟩

/-! ## C1: determinism and injectivity of `generate_uuid` -/

/-- Digit characters have the expected code points. -/
theorem digitChar_toNat {n : ℕ} (h : n < 10) : (Nat.digitChar n).toNat = 48 + n := by
  interval_cases n <;> rfl

/-- Unfolding `decNat` below ten. -/
theorem decNat_lt {n : ℕ} (h : n < 10) : decNat n = [Nat.digitChar n] := by
  rw [decNat]
  exact dif_pos h

/-- Unfolding `decNat` at ten or above. -/
theorem decNat_ge {n : ℕ} (h : ¬ n < 10) :
    decNat n = decNat (n / 10) ++ [Nat.digitChar (n % 10)] := by
  rw [decNat]
  exact dif_neg h

/-- `valFrom` evaluates `decNat` back to its argument. -/
theorem valFrom_decNat (n : ℕ) :
    ∀ a, valFrom a (decNat n) = a * 10 ^ (decNat n).length + n := by
  induction n using Nat.strong_induction_on with
  | _ n ih =>
    intro a
    by_cases h : n < 10
    · rw [decNat_lt h]
      simp only [valFrom, List.foldl_cons, List.foldl_nil, List.length_singleton, digitVal]
      rw [digitChar_toNat h]
      omega
    · rw [decNat_ge h]
      have hlt : n / 10 < n := Nat.div_lt_self (by omega) (by omega)
      have hrec := ih (n / 10) hlt a
      simp only [valFrom, List.foldl_append, List.foldl_cons, List.foldl_nil,
        List.length_append, List.length_singleton, digitVal] at hrec ⊢
      rw [hrec, digitChar_toNat (show n % 10 < 10 by omega)]
      have hkey : ∀ k : ℕ, (a * k + n / 10) * 10 + (48 + n % 10 - 48)
          = a * (k * 10) + (10 * (n / 10) + n % 10) := by
        intro k
        have : 48 + n % 10 - 48 = n % 10 := by omega
        rw [this]
        ring
      rw [hkey (10 ^ (decNat (n / 10)).length), pow_succ]
      have : 10 * (n / 10) + n % 10 = n := by omega
      rw [this]

/-- `decNat` is injective. -/
theorem decNat_inj (m n : ℕ) (h : decNat m = decNat n) : m = n := by
  have h1 := valFrom_decNat m 0
  have h2 := valFrom_decNat n 0
  rw [h, h2] at h1
  simp only [Nat.zero_mul, Nat.zero_add] at h1
  omega

/-- All characters of `decNat` are decimal digits. -/
theorem decNat_digits (n : ℕ) : ∀ c ∈ decNat n, 48 ≤ c.toNat ∧ c.toNat ≤ 57 := by
  induction n using Nat.strong_induction_on with
  | _ n ih =>
    intro c hc
    by_cases h : n < 10
    · rw [decNat_lt h] at hc
      simp only [List.mem_singleton] at hc
      subst hc
      rw [digitChar_toNat h]
      omega
    · rw [decNat_ge h] at hc
      rcases List.mem_append.mp hc with h' | h'
      · exact ih (n / 10) (Nat.div_lt_self (by omega) (by omega)) c h'
      · simp only [List.mem_singleton] at h'
        subst h'
        rw [digitChar_toNat (show n % 10 < 10 by omega)]
        omega

/-- `decNat` is never empty. -/
theorem decNat_ne_nil (n : ℕ) : decNat n ≠ [] := by
  by_cases h : n < 10
  · rw [decNat_lt h]; simp
  · rw [decNat_ge h]; simp

/-- `decNat` contains no comma. -/
theorem decNat_no_comma (n : ℕ) : ∀ c ∈ decNat n, c ≠ ',' := by
  intro c hc e
  have hd := decNat_digits n c hc
  have h44 : (',' : Char).toNat = 44 := rfl
  rw [e, h44] at hd
  omega

/-- `decInt` is injective. -/
theorem decInt_inj (i j : ℤ) (h : decInt i = decInt j) : i = j := by
  unfold decInt at h
  split_ifs at h with hi hj hj
  · injection h with _ h
    have := decNat_inj _ _ h
    omega
  · exfalso
    have hm : '-' ∈ decNat j.natAbs := by rw [← h]; exact List.mem_cons_self _ _
    have hd := decNat_digits j.natAbs '-' hm
    have h45 : ('-' : Char).toNat = 45 := rfl
    rw [h45] at hd
    omega
  · exfalso
    have hm : '-' ∈ decNat i.natAbs := by rw [h]; exact List.mem_cons_self _ _
    have hd := decNat_digits i.natAbs '-' hm
    have h45 : ('-' : Char).toNat = 45 := rfl
    rw [h45] at hd
    omega
  · have := decNat_inj _ _ h
    omega

/-- `decInt` is never empty. -/
theorem decInt_ne_nil (i : ℤ) : decInt i ≠ [] := by
  unfold decInt
  split_ifs
  · simp
  · exact decNat_ne_nil _

/-- `decInt` contains no comma. -/
theorem decInt_no_comma (i : ℤ) : ∀ c ∈ decInt i, c ≠ ',' := by
  intro c hc
  unfold decInt at hc
  split_ifs at hc
  · rcases List.mem_cons.mp hc with rfl | h'
    · decide
    · exact decNat_no_comma _ c h'
  · exact decNat_no_comma _ c hc

/-- Splitting at the first comma is unambiguous for comma-free prefixes. -/
theorem append_comma_inj :
    ∀ (a : List Char), (∀ x ∈ a, x ≠ ',') → ∀ (c : List Char), (∀ x ∈ c, x ≠ ',') →
      ∀ b d, a ++ ',' :: b = c ++ ',' :: d → a = c ∧ b = d := by
  intro a
  induction a with
  | nil =>
    intro _ c hc b d h
    cases c with
    | nil => simpa using h
    | cons y ys =>
      exfalso
      simp only [List.nil_append, List.cons_append, List.cons.injEq] at h
      exact hc y (List.mem_cons_self _ _) h.1.symm
  | cons x xs ih =>
    intro ha c hc b d h
    cases c with
    | nil =>
      exfalso
      simp only [List.nil_append, List.cons_append, List.cons.injEq] at h
      exact ha x (List.mem_cons_self _ _) h.1
    | cons y ys =>
      simp only [List.cons_append, List.cons.injEq] at h
      obtain ⟨rfl, h2⟩ := h
      obtain ⟨h3, h4⟩ := ih (fun z hz => ha z (List.mem_cons_of_mem _ hz)) ys
        (fun z hz => hc z (List.mem_cons_of_mem _ hz)) b d h2
      exact ⟨by rw [h3], h4⟩

/-- `joinComma` of a nonempty list of good strings is nonempty. -/
theorem joinComma_ne_nil :
    ∀ (l : List (List Char)), l ≠ [] → GoodStrs l → joinComma l ≠ [] := by
  intro l hne hg
  match l with
  | [] => exact absurd rfl hne
  | [x] => exact (hg x (List.mem_singleton.mpr rfl)).1
  | x :: y :: xs => simp [joinComma]

/-- `joinComma` is injective on lists of good strings. -/
theorem joinComma_inj :
    ∀ (l1 : List (List Char)), GoodStrs l1 → ∀ l2, GoodStrs l2 →
      joinComma l1 = joinComma l2 → l1 = l2 := by
  intro l1
  induction l1 with
  | nil =>
    intro _ l2 hg2 h
    cases l2 with
    | nil => rfl
    | cons y ys => exact absurd h.symm (joinComma_ne_nil (y :: ys) (by simp) hg2)
  | cons x xs ih =>
    intro hg1 l2 hg2 h
    cases l2 with
    | nil => exact absurd h (joinComma_ne_nil (x :: xs) (by simp) hg1)
    | cons y ys =>
      cases xs with
      | nil =>
        cases ys with
        | nil =>
          simp only [joinComma] at h
          rw [h]
        | cons z zs =>
          exfalso
          simp only [joinComma] at h
          have hx := (hg1 x (List.mem_singleton.mpr rfl)).2
          have hmem : (',' : Char) ∈ x := by
            rw [h]
            exact List.mem_append_right _ (List.mem_cons_self _ _)
          exact hx ',' hmem rfl
      | cons x2 xs2 =>
        cases ys with
        | nil =>
          exfalso
          simp only [joinComma] at h
          have hy := (hg2 y (List.mem_singleton.mpr rfl)).2
          have hmem : (',' : Char) ∈ y := by
            rw [← h]
            exact List.mem_append_right _ (List.mem_cons_self _ _)
          exact hy ',' hmem rfl
        | cons y2 ys2 =>
          simp only [joinComma] at h
          obtain ⟨h1, h2⟩ := append_comma_inj x (fun z hz => (hg1 x (List.mem_cons_self _ _)).2 z hz)
            y (fun z hz => (hg2 y (List.mem_cons_self _ _)).2 z hz) _ _ h
          have h3 := ih (fun s hs => hg1 s (List.mem_cons_of_mem _ hs)) (y2 :: ys2)
            (fun s hs => hg2 s (List.mem_cons_of_mem _ hs)) h2
          rw [h1, h3]

/-- `dedup` preserves `toFinset`. -/
theorem dedup_toFinset (l : List (List Char)) : l.dedup.toFinset = l.toFinset := by
  ext a
  simp [List.mem_toFinset, List.mem_dedup]

/-- Equal `toFinset`s make the deduplicated lists permutations. -/
theorem dedup_perm_of_toFinset_eq {l1 l2 : List (List Char)}
    (h : l1.toFinset = l2.toFinset) : l1.dedup.Perm l2.dedup := by
  have hv := congrArg Finset.val h
  simp only [List.toFinset, Multiset.toFinset_val, Multiset.coe_dedup] at hv
  exact Multiset.coe_eq_coe.mp hv

/-- The canonical variable list is a permutation of the deduplicated input. -/
theorem canonVarNames_perm (l : List (List Char)) : (canonVarNames l).Perm l.dedup :=
  List.perm_insertionSort _ _

/-- The canonical variable list is sorted. -/
theorem canonVarNames_sorted (l : List (List Char)) :
    List.Sorted (· ≤ ·) (canonVarNames l) :=
  List.sorted_insertionSort _ _

/-- Set-equal inputs canonicalize identically. -/
theorem canonVarNames_eq_of_toFinset_eq {l1 l2 : List (List Char)}
    (h : l1.toFinset = l2.toFinset) : canonVarNames l1 = canonVarNames l2 :=
  List.eq_of_perm_of_sorted
    ((canonVarNames_perm l1).trans ((dedup_perm_of_toFinset_eq h).trans
      (canonVarNames_perm l2).symm))
    (canonVarNames_sorted l1) (canonVarNames_sorted l2)

/-- Canonicalization preserves `toFinset`. -/
theorem canonVarNames_toFinset (l : List (List Char)) :
    (canonVarNames l).toFinset = l.toFinset :=
  (List.toFinset_eq_of_perm _ _ (canonVarNames_perm l)).trans (dedup_toFinset l)

/-- Canonicalization preserves goodness of the strings. -/
theorem canonVarNames_goodStrs {l : List (List Char)} (h : GoodStrs l) :
    GoodStrs (canonVarNames l) := fun s hs =>
  h s (List.mem_dedup.mp ((canonVarNames_perm l).subset hs))

/-- Canonicalization of a nonempty list is nonempty. -/
theorem canonVarNames_ne_nil {l : List (List Char)} (h : l ≠ []) :
    canonVarNames l ≠ [] := by
  intro e
  have hlen := (canonVarNames_perm l).length_eq
  rw [e] at hlen
  exact h ((List.dedup_eq_nil l).mp (List.eq_nil_of_length_eq_zero hlen.symm))

/-- `formatTimeRange` is injective. -/
theorem formatTimeRange_inj {t1 t2 : ℕ × ℕ} (h : formatTimeRange t1 = formatTimeRange t2) :
    t1 = t2 := by
  obtain ⟨a1, b1⟩ := t1
  obtain ⟨a2, b2⟩ := t2
  have hg : ∀ a b : ℕ, GoodStrs [decNat a, decNat b] := by
    intro a b s hs
    simp only [List.mem_cons, List.mem_singleton, List.not_mem_nil, or_false] at hs
    rcases hs with rfl | rfl
    · exact ⟨decNat_ne_nil _, decNat_no_comma _⟩
    · exact ⟨decNat_ne_nil _, decNat_no_comma _⟩
  have h2 := joinComma_inj [decNat a1, decNat b1] (hg a1 b1) [decNat a2, decNat b2] (hg a2 b2) h
  simp only [List.cons.injEq, and_true] at h2
  obtain ⟨e1, e2⟩ := h2
  rw [Prod.mk.injEq]
  exact ⟨decNat_inj _ _ e1, decNat_inj _ _ e2⟩

/-- `formatTimeRange` is nonempty. -/
theorem formatTimeRange_ne_nil (t : ℕ × ℕ) : formatTimeRange t ≠ [] := by
  unfold formatTimeRange joinComma
  simp

/-- `formatRegion` is injective. -/
theorem formatRegion_inj {r1 r2 : RegionBox} (h : formatRegion r1 = formatRegion r2) :
    r1 = r2 := by
  obtain ⟨a1, b1, c1, d1⟩ := r1
  obtain ⟨a2, b2, c2, d2⟩ := r2
  have hg : ∀ a b c d : ℤ, GoodStrs [decInt a, decInt b, decInt c, decInt d] := by
    intro a b c d s hs
    simp only [List.mem_cons, List.mem_singleton, List.not_mem_nil, or_false] at hs
    rcases hs with rfl | rfl | rfl | rfl <;>
      exact ⟨decInt_ne_nil _, decInt_no_comma _⟩
  have h2 := joinComma_inj [decInt a1, decInt b1, decInt c1, decInt d1] (hg a1 b1 c1 d1)
    [decInt a2, decInt b2, decInt c2, decInt d2] (hg a2 b2 c2 d2) h
  simp only [List.cons.injEq, and_true] at h2
  obtain ⟨e1, e2, e3, e4⟩ := h2
  rw [RegionBox.mk.injEq]
  exact ⟨decInt_inj _ _ e1, decInt_inj _ _ e2, decInt_inj _ _ e3, decInt_inj _ _ e4⟩

/-- `formatRegion` is nonempty. -/
theorem formatRegion_ne_nil (r : RegionBox) : formatRegion r ≠ [] := by
  unfold formatRegion joinComma
  simp

/-- Equal renderings of good variable lists force equal sets. -/
theorem formatVarNames_inj {v1 v2 : List (List Char)} (h1 : GoodStrs v1) (h2 : GoodStrs v2)
    (h : formatVarNames v1 = formatVarNames v2) : v1.toFinset = v2.toFinset := by
  have := joinComma_inj (canonVarNames v1) (canonVarNames_goodStrs h1)
    (canonVarNames v2) (canonVarNames_goodStrs h2) h
  have h3 := congrArg List.toFinset this
  rwa [canonVarNames_toFinset, canonVarNames_toFinset] at h3

/-- The rendering of a nonempty good variable list is nonempty. -/
theorem formatVarNames_ne_nil {v : List (List Char)} (hne : v ≠ []) (hg : GoodStrs v) :
    formatVarNames v ≠ [] :=
  joinComma_ne_nil _ (canonVarNames_ne_nil hne) (canonVarNames_goodStrs hg)

/-- The modelled hash is injective for a fixed namespace. -/
theorem uuid3_inj {a b : List Char} (h : uuid3 NAMESPACE a = uuid3 NAMESPACE b) : a = b := by
  unfold uuid3 at h
  have h2 := List.append_cancel_left h
  injection h2

/-- `generate_uuid` hashes the source id followed by the optional parameter
suffix. -/
theorem generate_uuid_eq (r : List Char) (tr : Option (ℕ × ℕ)) (rg : Option RegionBox)
    (vs : Option (List (List Char))) :
    generate_uuid r tr rg vs = uuid3 NAMESPACE (r ++ optSuffix tr rg vs) := by
  rcases tr with _ | t <;> rcases rg with _ | g <;> rcases vs with _ | v <;>
    simp only [generate_uuid, optSuffix, optTR, optRG, optVS, List.append_nil,
      List.nil_append, List.append_assoc] <;>
    split_ifs <;>
    simp [List.append_assoc]

/-- `optTR` is injective. -/
theorem optTR_inj {a b : Option (ℕ × ℕ)} (h : optTR a = optTR b) : a = b := by
  rcases a with _ | t1 <;> rcases b with _ | t2 <;> simp only [optTR] at h
  · rfl
  · exact absurd h.symm (formatTimeRange_ne_nil t2)
  · exact absurd h (formatTimeRange_ne_nil t1)
  · rw [formatTimeRange_inj h]

/-- `optRG` is injective. -/
theorem optRG_inj {a b : Option RegionBox} (h : optRG a = optRG b) : a = b := by
  rcases a with _ | g1 <;> rcases b with _ | g2 <;> simp only [optRG] at h
  · rfl
  · exact absurd h.symm (formatRegion_ne_nil g2)
  · exact absurd h (formatRegion_ne_nil g1)
  · rw [formatRegion_inj h]

/-- C1: `generate_uuid` is deterministic — identical arguments give identical
keys, and set-equal (reordered, deduplicated) variable lists give identical
keys — while varying any one argument (the source id, the time range, the
region, or the variable set, the latter for nonempty comma-free names)
yields a different key.  Formatting of the external
`TimeRangeLike`/`PolygonLike`/`VarNamesLike` types and the `uuid.uuid3` hash
are modelled from the spec (order-independent canonical renderings,
collision-free hash). -/
theorem generate_uuid_spec :
    (∀ r tr rg vs, generate_uuid r tr rg vs = generate_uuid r tr rg vs) ∧
    (∀ r tr rg (vs1 vs2 : List (List Char)), vs1.toFinset = vs2.toFinset →
      generate_uuid r tr rg (some vs1) = generate_uuid r tr rg (some vs2)) ∧
    (∀ r1 r2 tr rg vs, r1 ≠ r2 → generate_uuid r1 tr rg vs ≠ generate_uuid r2 tr rg vs) ∧
    (∀ r tr1 tr2 rg vs, tr1 ≠ tr2 → generate_uuid r tr1 rg vs ≠ generate_uuid r tr2 rg vs) ∧
    (∀ r tr rg1 rg2 vs, rg1 ≠ rg2 → generate_uuid r tr rg1 vs ≠ generate_uuid r tr rg2 vs) ∧
    (∀ r tr rg (vs1 vs2 : List (List Char)), GoodStrs vs1 → GoodStrs vs2 →
      vs1.toFinset ≠ vs2.toFinset →
      generate_uuid r tr rg (some vs1) ≠ generate_uuid r tr rg (some vs2)) := by
  refine ⟨fun r tr rg vs => rfl, ?_, ?_, ?_, ?_, ?_⟩
  · intro r tr rg vs1 vs2 hfin
    rw [generate_uuid_eq, generate_uuid_eq]
    have hv : optVS (some vs1) = optVS (some vs2) := by
      simp only [optVS]
      by_cases h1 : vs1 = []
      · subst h1
        have h2 : vs2 = [] := by
          rw [← List.toFinset_eq_empty_iff]
          rw [← hfin]
          simp
        rw [h2]
      · have h2 : vs2 ≠ [] := by
          intro e
          subst e
          apply h1
          rw [← List.toFinset_eq_empty_iff]
          rw [hfin]
          simp
        rw [if_neg h1, if_neg h2]
        unfold formatVarNames
        rw [canonVarNames_eq_of_toFinset_eq hfin]
    simp only [optSuffix, hv]
  · intro r1 r2 tr rg vs hne h
    rw [generate_uuid_eq, generate_uuid_eq] at h
    exact hne (List.append_cancel_right (uuid3_inj h))
  · intro r tr1 tr2 rg vs hne h
    rw [generate_uuid_eq, generate_uuid_eq] at h
    have h2 := List.append_cancel_left (uuid3_inj h)
    simp only [optSuffix, List.append_assoc] at h2
    exact hne (optTR_inj (List.append_cancel_right h2))
  · intro r tr rg1 rg2 vs hne h
    rw [generate_uuid_eq, generate_uuid_eq] at h
    have h2 := List.append_cancel_left (uuid3_inj h)
    simp only [optSuffix] at h2
    exact hne (optRG_inj (List.append_cancel_left (List.append_cancel_right h2)))
  · intro r tr rg vs1 vs2 hg1 hg2 hfin h
    rw [generate_uuid_eq, generate_uuid_eq] at h
    have h2 := List.append_cancel_left (uuid3_inj h)
    simp only [optSuffix] at h2
    have h3 : optVS (some vs1) = optVS (some vs2) := List.append_cancel_left h2
    apply hfin
    simp only [optVS] at h3
    by_cases ha : vs1 = [] <;> by_cases hb : vs2 = []
    · rw [ha, hb]
    · exfalso
      rw [if_pos ha, if_neg hb] at h3
      exact formatVarNames_ne_nil hb hg2 h3.symm
    · exfalso
      rw [if_neg ha, if_pos hb] at h3
      exact formatVarNames_ne_nil ha hg1 h3
    · rw [if_neg ha, if_neg hb] at h3
      exact formatVarNames_inj hg1 hg2 h3

/-- Witness for C1: concrete instances of the set-equality, source-id,
time-range and variable-set conjuncts. -/
theorem generate_uuid_spec_witness :
    generate_uuid ['x'] none none (some [['a'], ['b']])
      = generate_uuid ['x'] none none (some [['b'], ['a']]) ∧
    generate_uuid ['x'] none none none ≠ generate_uuid ['y'] none none none ∧
    generate_uuid ['x'] (some (1, 2)) none none ≠ generate_uuid ['x'] (some (1, 3)) none none ∧
    generate_uuid ['x'] none none (some [['a']]) ≠ generate_uuid ['x'] none none (some [['b']]) :=
  ⟨generate_uuid_spec.2.1 ['x'] none none [['a'], ['b']] [['b'], ['a']] (by decide),
   generate_uuid_spec.2.2.1 ['x'] ['y'] none none none (by decide),
   generate_uuid_spec.2.2.2.1 ['x'] (some (1, 2)) (some (1, 3)) none none (by decide),
   generate_uuid_spec.2.2.2.2.2 ['x'] none none [['a']] [['b']]
     (by decide) (by decide) (by decide)⟩

/-! ## C5: `create_data_source` lock contention -/

/-- C5: on a store whose index holds the requested id, with `lock_file`
true and a lock record naming a live foreign process (pid 42, recorded
start time 99) whose recorded start time equals its current start time in
the process table, `create_data_source` called by pid 7 does not raise the
claimed contention error: the misparenthesized unpacking of local.py
713-714 binds `writer_pid` to a generator object (the line contains a
colon), and `psutil.pid_exists` raises `TypeError` on it. -/
theorem create_data_source_lock_typeerror :
    create_data_source
      ⟨[⟨['l', '.', 'x'], none, [], true⟩], some ['4', '2', ':', '9', '9']⟩
      ['l'] ['x'] none [] true 7 [(42, 99), (7, 5)] = .error .typeError := by
  rfl

/-! ## C6: JSON round trip -/

/-- C6 counterexample: an entry with one named variable round-trips to an
entry whose variable list is empty.  `from_json_dict` rebuilds the list
from exactly those records of `meta_info['variables']` that LACK a truthy
name, so every named variable is dropped. -/
theorem roundTrip_drops_variables :
    (roundTrip exC6).map LocalDataSource.vars = some [] ∧
      exC6.vars = [some ['a']] :=
  ⟨rfl, rfl⟩

/-- `to_json_dict`'s files serialization on a manifest of second-precision
pair coverages: it succeeds, and truncation is the identity. -/
theorem to_json_files_pairs (fs : List (List Char × Option FileCov))
    (h : ∀ f ∈ fs, ∃ s e,
      f.2 = some (FileCov.pair s e) ∧ truncSec s = s ∧ truncSec e = e) :
    (fs.mapM (fun it =>
      match it.2 with
      | some (.pair s e) => some (it.1, some (truncSec s, truncSec e))
      | some (.single _) => none
      | none => some (it.1, none)) :
        Option (List (List Char × Option (Micros × Micros)))) =
      some (fs.map (fun it =>
        match it.2 with
        | some (.pair s e) => (it.1, some (s, e))
        | some (.single _) => (it.1, none)
        | none => (it.1, none))) := by
  induction fs with
  | nil => rfl
  | cons f t ih =>
    obtain ⟨p, c⟩ := f
    obtain ⟨s, e, h2, hs, he⟩ := h (p, c) (List.mem_cons_self _ t)
    simp only at h2
    subst h2
    rw [List.mapM_cons, List.map_cons,
      ih (fun g hg => h g (List.mem_cons_of_mem _ hg))]
    simp only [hs, he]
    rfl

/-- `from_json_dict`'s 3-element files parse on the serialized form of a
manifest of second-precision pair coverages reproduces the manifest. -/
theorem from_json_files_pairs (fs : List (List Char × Option FileCov))
    (h : ∀ f ∈ fs, ∃ s e,
      f.2 = some (FileCov.pair s e) ∧ truncSec s = s ∧ truncSec e = e) :
    ((fs.map (fun it =>
        match it.2 with
        | some (.pair s e) => (it.1, some (s, e))
        | some (.single _) => (it.1, none)
        | none => (it.1, (none : Option (Micros × Micros))))).mapM (fun it =>
      match it.2 with
      | some (s, e) => some (it.1, some (FileCov.pair (truncSec s) (truncSec e)))
      | none => none)) = some fs := by
  induction fs with
  | nil => rfl
  | cons f t ih =>
    obtain ⟨p, c⟩ := f
    obtain ⟨s, e, h2, hs, he⟩ := h (p, c) (List.mem_cons_self _ t)
    simp only at h2
    subst h2
    rw [List.map_cons, List.mapM_cons,
      ih (fun g hg => h g (List.mem_cons_of_mem _ hg))]
    simp only [hs, he]
    rfl

/-- C6 (amended): for every entry whose id is nonempty, whose files all
carry second-precision pair coverages, whose temporal coverage equals the
one the constructor derives from its files, whose `meta_info` lacks the
`temporal_coverage_start`/`temporal_coverage_end` keys, and whose
`meta_info` variable records all have truthy names, the round trip
reproduces the id, the files, the temporal coverage and the meta_info
exactly — but the in-memory `variables` list always comes back EMPTY
(and the derived-only spatial coverage and completeness flag are reset),
so `variables` is not reproduced whenever it was nonempty. -/
theorem roundTrip_spec (ds : LocalDataSource)
    (hid : ds.id ≠ [])
    (hfiles : ∀ f ∈ ds.files, ∃ s e,
      f.2 = some (FileCov.pair s e) ∧ truncSec s = s ∧ truncSec e = e)
    (hcov : deriveInitialCoverage ds.files = some ds.temporal_coverage)
    (hts : ds.meta_info.temporal_coverage_start = none)
    (hte : ds.meta_info.temporal_coverage_end = none)
    (hvr : ∀ v ∈ ds.meta_info.varRecords.getD [], nameTruthy v = true) :
    roundTrip ds =
      some { ds with vars := [], spatial_coverage := none, is_complete := true } := by
  obtain ⟨i, fs, tc, sc, vs, mi, ic⟩ := ds
  simp only at hid hfiles hcov hts hte hvr ⊢
  unfold roundTrip to_json_dict
  rw [to_json_files_pairs fs hfiles]
  show from_json_dict ⟨i, mi, _⟩ = _
  have hfil : (mi.varRecords.getD []).filter (fun v => nameTruthy v = false) = [] :=
    List.filter_eq_nil_iff.mpr (fun a ha => by simp [hvr a ha])
  unfold from_json_dict
  simp only [hts, hte, hfil, List.map_nil, ite_self, if_neg hid]
  cases fs with
  | nil =>
    have htc : tc = none := by
      simpa [deriveInitialCoverage] using hcov.symm
    subst htc
    rfl
  | cons f t =>
    obtain ⟨p, c⟩ := f
    obtain ⟨s, e, h2, hs, he⟩ := hfiles (p, c) (List.mem_cons_self _ t)
    simp only at h2
    subst h2
    rw [from_json_files_pairs _ hfiles]
    show mkLocalDataSource i ((p, some (FileCov.pair s e)) :: t) none none [] (some mi) = _
    unfold mkLocalDataSource
    rw [hcov]
    simp

/-- Witness for the amended C6 round trip: a concrete entry with a
nonempty id, one second-precision file, matching derived coverage, empty
meta_info temporal keys and no variable records round-trips to itself. -/
theorem roundTrip_spec_witness :
    roundTrip ⟨['d'], [(['f'], some (.pair 1000000 2000000))],
        some (1000000, 2000000), none, [], MetaInfo.empty, true⟩ =
      some ⟨['d'], [(['f'], some (.pair 1000000 2000000))],
        some (1000000, 2000000), none, [], MetaInfo.empty, true⟩ :=
  roundTrip_spec
    ⟨['d'], [(['f'], some (.pair 1000000 2000000))],
      some (1000000, 2000000), none, [], MetaInfo.empty, true⟩
    (by decide)
    (by
      intro f hf
      rw [List.mem_singleton] at hf
      exact ⟨1000000, 2000000, by rw [hf], by decide, by decide⟩)
    rfl rfl rfl
    (by intro v hv; simp [MetaInfo.empty] at hv)
